import Mathlib

/-!
# cf-services: shallow embedding

Embedding of the `cf-services` Rust crate (src/lib.rs): a JSON value tree,
a serde-style decoder for `HashMap<String, Vec<Service>>` (field defaulting,
field renaming, duplicate-field rejection, unknown-field tolerance, `i16`
port), a JSON text parser, and the three public operations
`get_services_from_env`, `get_service_credentials`,
`get_service_cred_from_env` together with the `CFError` type.

JSON numbers are split like serde_json's `Number`: an integer token becomes
`Json.num` (exact `Int`), a token with a fraction or exponent part becomes
`Json.fnum m e` (the exact decimal `m × 10^e`). In this program the only
place a number is converted to a machine type is the `i16` `port` field;
every other number is either a type error (string fields, catalog values)
or ignored (unknown fields, which serde skips syntactically via
`IgnoredAny` without numeric conversion), so the exact decimal carries all
observable information. The text parser mirrors serde_json's strict
string handling (escapes, `\uXXXX` with surrogate pairing, no raw control
characters) and its recursion limit of 128 nested arrays/objects.
-/

/-- A JSON value. -/
inductive Json where
  | null
  | bool (b : Bool)
  | num (n : Int)
  | fnum (m : Int) (e : Int)
  | str (s : String)
  | arr (elements : List Json)
  | obj (fields : List (String × Json))

/-- The credentials information for authenticating with the service
(struct `Credentials` in src/lib.rs). The Rust field `port : i16` is
modelled as an `Int`; the decoder enforces the `i16` range. -/
structure Credentials where
  uri : String
  jdbc_url : String
  api_uri : String
  license_key : String
  client_secret : String
  client_id : String
  access_token_uri : String
  hostname : String
  username : String
  password : String
  port : Int
  name : String
deriving DecidableEq, Repr, Inhabited

/-- The high level service information (struct `Service` in src/lib.rs). -/
structure Service where
  name : String
  instance_name : String
  binding_name : String
  credentials : Credentials
  label : String
deriving DecidableEq, Repr, Inhabited

/-- The decoded value of the environment variable:
Rust's `HashMap<String, Vec<Service>>`, modelled as an association list
with unique keys (built by `insertCatalog`). -/
abbrev Catalog : Type := List (String × List Service)

/-- Enumeration of the different errors that can occur (`CFError`). -/
inductive CFError where
  | EnvNotSet
  | MalformedJSON
  | ServiceNotPresent (s : String)
deriving DecidableEq, Repr, Inhabited

/-- The environment variable key (`VCAP_SERVICES` constant). -/
def VCAP_SERVICES : String := "VCAP_SERVICES"

/-! ## serde-style structural decoding

Derived `Deserialize` on a struct visits the entries of a JSON object in
order; a known field name must not repeat (duplicate-field error) and its
value must have the field's type; unknown names are ignored; at the end,
each still-unset `#[serde(default)]` field takes its default, while a
missing `credentials` field is an error. -/

/-- serde: a `String` field accepts exactly a JSON string. -/
def decodeStr : Json → Option String
  | .str s => some s
  | _ => none

/-- serde: an `i16` field accepts exactly an integer token in the `i16` range. -/
def decodeI16 : Json → Option Int
  | .num n => if -32768 ≤ n ∧ n ≤ 32767 then some n else none
  | _ => none

/-- Partially-built `Credentials` during deserialization: which fields have
been seen, and their values. -/
structure CredBuild where
  uri : Option String
  jdbc_url : Option String
  api_uri : Option String
  license_key : Option String
  client_secret : Option String
  client_id : Option String
  access_token_uri : Option String
  hostname : Option String
  username : Option String
  password : Option String
  port : Option Int
  name : Option String
deriving DecidableEq, Repr

/-- No field of `Credentials` seen yet. -/
def credInit : CredBuild :=
  ⟨none, none, none, none, none, none, none, none, none, none, none, none⟩

/-- Process one JSON object entry of a `Credentials` object: dispatch on the
(wire) field name, with the `#[serde(rename(deserialize = ...))]` names
`jdbcUrl`, `http_api_uri` and `licenseKey` for the internal `jdbc_url`,
`api_uri` and `license_key`; reject a duplicate of a known field; ignore
unknown names. -/
def credStep (st : CredBuild) (kv : String × Json) : Option CredBuild :=
  match kv.1 with
  | "uri" =>
    if st.uri.isSome then none else
      (decodeStr kv.2).map fun s => { st with uri := some s }
  | "jdbcUrl" =>
    if st.jdbc_url.isSome then none else
      (decodeStr kv.2).map fun s => { st with jdbc_url := some s }
  | "http_api_uri" =>
    if st.api_uri.isSome then none else
      (decodeStr kv.2).map fun s => { st with api_uri := some s }
  | "licenseKey" =>
    if st.license_key.isSome then none else
      (decodeStr kv.2).map fun s => { st with license_key := some s }
  | "client_secret" =>
    if st.client_secret.isSome then none else
      (decodeStr kv.2).map fun s => { st with client_secret := some s }
  | "client_id" =>
    if st.client_id.isSome then none else
      (decodeStr kv.2).map fun s => { st with client_id := some s }
  | "access_token_uri" =>
    if st.access_token_uri.isSome then none else
      (decodeStr kv.2).map fun s => { st with access_token_uri := some s }
  | "hostname" =>
    if st.hostname.isSome then none else
      (decodeStr kv.2).map fun s => { st with hostname := some s }
  | "username" =>
    if st.username.isSome then none else
      (decodeStr kv.2).map fun s => { st with username := some s }
  | "password" =>
    if st.password.isSome then none else
      (decodeStr kv.2).map fun s => { st with password := some s }
  | "port" =>
    if st.port.isSome then none else
      (decodeI16 kv.2).map fun n => { st with port := some n }
  | "name" =>
    if st.name.isSome then none else
      (decodeStr kv.2).map fun s => { st with name := some s }
  | _ => some st

/-- Fill the defaults: every unset `#[serde(default)]` field becomes the
empty string, `port` becomes `0`. -/
def credFinish (st : CredBuild) : Credentials :=
  { uri := st.uri.getD ""
    jdbc_url := st.jdbc_url.getD ""
    api_uri := st.api_uri.getD ""
    license_key := st.license_key.getD ""
    client_secret := st.client_secret.getD ""
    client_id := st.client_id.getD ""
    access_token_uri := st.access_token_uri.getD ""
    hostname := st.hostname.getD ""
    username := st.username.getD ""
    password := st.password.getD ""
    port := st.port.getD 0
    name := st.name.getD "" }

/-- Deserialize a `Credentials` from a JSON value: must be an object; its
entries are processed in order; all fields are optional. -/
def decodeCredentials : Json → Option Credentials
  | .obj fields => (List.foldlM credStep credInit fields).map credFinish
  | _ => none

/-- Partially-built `Service` during deserialization. -/
structure ServiceBuild where
  name : Option String
  instance_name : Option String
  binding_name : Option String
  credentials : Option Credentials
  label : Option String
deriving DecidableEq, Repr

/-- No field of `Service` seen yet. -/
def serviceInit : ServiceBuild := ⟨none, none, none, none, none⟩

/-- Process one JSON object entry of a `Service` (binding) object. -/
def serviceStep (st : ServiceBuild) (kv : String × Json) : Option ServiceBuild :=
  match kv.1 with
  | "name" =>
    if st.name.isSome then none else
      (decodeStr kv.2).map fun s => { st with name := some s }
  | "instance_name" =>
    if st.instance_name.isSome then none else
      (decodeStr kv.2).map fun s => { st with instance_name := some s }
  | "binding_name" =>
    if st.binding_name.isSome then none else
      (decodeStr kv.2).map fun s => { st with binding_name := some s }
  | "credentials" =>
    if st.credentials.isSome then none else
      (decodeCredentials kv.2).map fun c => { st with credentials := some c }
  | "label" =>
    if st.label.isSome then none else
      (decodeStr kv.2).map fun s => { st with label := some s }
  | _ => some st

/-- Finish a `Service`: `credentials` is mandatory (no default), every other
field defaults to the empty string. -/
def serviceFinish (st : ServiceBuild) : Option Service :=
  st.credentials.map fun c =>
    { name := st.name.getD ""
      instance_name := st.instance_name.getD ""
      binding_name := st.binding_name.getD ""
      credentials := c
      label := st.label.getD "" }

/-- Deserialize a `Service` from a JSON value. -/
def decodeService : Json → Option Service
  | .obj fields => List.foldlM serviceStep serviceInit fields >>= serviceFinish
  | _ => none

/-- Deserialize a `Vec<Service>`: must be a JSON array, each element a
`Service`. -/
def decodeServiceList : Json → Option (List Service)
  | .arr xs => xs.mapM decodeService
  | _ => none

/-- `HashMap` insertion: replace the value of an existing key in place,
append a new key. -/
def insertCatalog : Catalog → String → List Service → Catalog
  | [], k, v => [(k, v)]
  | (k', v') :: rest, k, v =>
    if k' = k then (k, v) :: rest else (k', v') :: insertCatalog rest k v

/-- Deserialize a `HashMap<String, Vec<Service>>` from a JSON value: must be
an object; every value must deserialize as a `Vec<Service>`. -/
def decodeCatalog : Json → Option Catalog
  | .obj fields =>
    List.foldlM (fun cat kv => (decodeServiceList kv.2).map (insertCatalog cat kv.1))
      ([] : Catalog) fields
  | _ => none

/-- `HashMap::get`: look a key up in the catalog. -/
def catalogGet : Catalog → String → Option (List Service)
  | [], _ => none
  | (k, v) :: rest, key => if k = key then some v else catalogGet rest key

/-! ## JSON text parsing (serde_json's grammar, integer numbers only) -/

/-- JSON insignificant whitespace. -/
def isJsonWs (c : Char) : Bool :=
  c = ' ' || c = '\n' || c = '\r' || c = '\t'

/-- Drop leading whitespace. -/
def skipWs (l : List Char) : List Char := l.dropWhile isJsonWs

/-- Value of one hex digit. -/
def hexDigit (c : Char) : Option Nat :=
  if '0' ≤ c ∧ c ≤ '9' then some (c.toNat - 48)
  else if 'a' ≤ c ∧ c ≤ 'f' then some (c.toNat - 87)
  else if 'A' ≤ c ∧ c ≤ 'F' then some (c.toNat - 55)
  else none

/-- A single short escape after a backslash. -/
def escChar (c : Char) : Option Char :=
  match c with
  | '"' => some '"'
  | '\\' => some '\\'
  | '/' => some '/'
  | 'b' => some (Char.ofNat 8)
  | 'f' => some (Char.ofNat 12)
  | 'n' => some '\n'
  | 'r' => some '\r'
  | 't' => some '\t'
  | _ => none

/-- Scan a JSON string body after its opening quote, returning the decoded
characters and the remaining input. Raw control characters are rejected;
escapes are `\"`, `\\`, `\/`, `\b`, `\f`, `\n`, `\r`, `\t` and `\uXXXX`.
A `\uXXXX` in the high-surrogate range must be followed immediately by a
`\uXXXX` in the low-surrogate range (the pair combines into one scalar);
a lone surrogate, leading or trailing, is an error, as in serde_json. -/
def scanStr : List Char → Option (List Char × List Char)
  | [] => none
  | '"' :: rest => some ([], rest)
  | '\\' :: 'u' :: h1 :: h2 :: h3 :: h4 :: rest =>
    match hexDigit h1, hexDigit h2, hexDigit h3, hexDigit h4 with
    | some a, some b, some c, some d =>
      let n := ((a * 16 + b) * 16 + c) * 16 + d
      if 0xDC00 ≤ n ∧ n ≤ 0xDFFF then none
      else if 0xD800 ≤ n ∧ n ≤ 0xDBFF then
        match rest with
        | '\\' :: 'u' :: g1 :: g2 :: g3 :: g4 :: rest2 =>
          match hexDigit g1, hexDigit g2, hexDigit g3, hexDigit g4 with
          | some a2, some b2, some c2, some d2 =>
            let n2 := ((a2 * 16 + b2) * 16 + c2) * 16 + d2
            if 0xDC00 ≤ n2 ∧ n2 ≤ 0xDFFF then
              (scanStr rest2).map fun p =>
                (Char.ofNat (0x10000 + (n - 0xD800) * 0x400 + (n2 - 0xDC00))
                  :: p.1, p.2)
            else none
          | _, _, _, _ => none
        | _ => none
      else (scanStr rest).map fun p => (Char.ofNat n :: p.1, p.2)
    | _, _, _, _ => none
  | '\\' :: e :: rest =>
    match escChar e with
    | some c => (scanStr rest).map fun p => (c :: p.1, p.2)
    | none => none
  | c :: rest =>
    if c.toNat < 32 then none
    else (scanStr rest).map fun p => (c :: p.1, p.2)

/-- Numeric value of a digit run. -/
def digitsToNat (l : List Char) : Nat :=
  l.foldl (fun n c => n * 10 + (c.toNat - 48)) 0

/-- Apply a scanned minus sign. -/
def signed (neg : Bool) (n : Nat) : Int :=
  if neg then -(n : Int) else (n : Int)

/-- Scan an exponent part after the `e`/`E` marker: optional sign, at
least one digit. -/
def scanExp (l : List Char) : Option (Int × List Char) :=
  let sgn : Bool × List Char := match l with
    | '+' :: rest => (false, rest)
    | '-' :: rest => (true, rest)
    | _ => (false, l)
  let es := sgn.2.takeWhile Char.isDigit
  if es.isEmpty then none
  else some (signed sgn.1 (digitsToNat es), sgn.2.dropWhile Char.isDigit)

/-- Scan a JSON number token: optional minus, digits with no redundant
leading zero, then optional fraction and exponent parts. An integer token
yields `Json.num`; a token with a fraction or exponent yields `Json.fnum`
(the exact decimal), which serde_json treats as a float. -/
def scanNum (l : List Char) : Option (Json × List Char) :=
  let sgn : Bool × List Char := match l with
    | '-' :: rest => (true, rest)
    | _ => (false, l)
  let ds := sgn.2.takeWhile Char.isDigit
  let rest := sgn.2.dropWhile Char.isDigit
  if ds.isEmpty then none
  else if 1 < ds.length ∧ ds.head? = some '0' then none
  else match rest with
    | '.' :: r =>
      let fs := r.takeWhile Char.isDigit
      let rest2 := r.dropWhile Char.isDigit
      if fs.isEmpty then none
      else
        let m : Int := signed sgn.1 (digitsToNat (ds ++ fs))
        match rest2 with
        | 'e' :: r2 =>
          (scanExp r2).map fun p => (.fnum m (p.1 - fs.length), p.2)
        | 'E' :: r2 =>
          (scanExp r2).map fun p => (.fnum m (p.1 - fs.length), p.2)
        | _ => some (.fnum m (-(fs.length : Int)), rest2)
    | 'e' :: r2 =>
      (scanExp r2).map fun p => (.fnum (signed sgn.1 (digitsToNat ds)) p.1, p.2)
    | 'E' :: r2 =>
      (scanExp r2).map fun p => (.fnum (signed sgn.1 (digitsToNat ds)) p.1, p.2)
    | _ => some (.num (signed sgn.1 (digitsToNat ds)), rest)

mutual

/-- Parse one JSON value (leading whitespace allowed). `fuel` only bounds
the recursion for totality (the caller passes enough for any input);
`depth` models the serde_json recursion limit: entering an array or object
decrements it, and reaching zero is a parse error (limit 128). -/
def parseValue : Nat → Nat → List Char → Option (Json × List Char)
  | 0, _, _ => none
  | fuel + 1, depth, input =>
    match skipWs input with
    | 'n' :: 'u' :: 'l' :: 'l' :: rest => some (.null, rest)
    | 't' :: 'r' :: 'u' :: 'e' :: rest => some (.bool true, rest)
    | 'f' :: 'a' :: 'l' :: 's' :: 'e' :: rest => some (.bool false, rest)
    | '"' :: rest =>
      (scanStr rest).map fun p => (.str (String.mk p.1), p.2)
    | '[' :: rest =>
      if depth ≤ 1 then none
      else
        match skipWs rest with
        | ']' :: rest2 => some (.arr [], rest2)
        | other =>
          (parseArrayItems fuel (depth - 1) other).map fun p => (.arr p.1, p.2)
    | c :: rest =>
      if c.toNat = 123 then
        if depth ≤ 1 then none
        else
          match skipWs rest with
          | c2 :: rest2 =>
            if c2.toNat = 125 then some (.obj [], rest2)
            else
              (parseObjItems fuel (depth - 1) (c2 :: rest2)).map fun p =>
                (.obj p.1, p.2)
          | [] => none
      else if c = '-' || c.isDigit then scanNum (c :: rest)
      else none
    | [] => none

/-- Parse the elements of a non-empty JSON array up to its closing bracket. -/
def parseArrayItems : Nat → Nat → List Char → Option (List Json × List Char)
  | 0, _, _ => none
  | fuel + 1, depth, input =>
    match parseValue fuel depth input with
    | none => none
    | some (v, rest) =>
      match skipWs rest with
      | ',' :: rest2 =>
        (parseArrayItems fuel depth rest2).map fun p => (v :: p.1, p.2)
      | ']' :: rest2 => some ([v], rest2)
      | _ => none

/-- Parse the members of a non-empty JSON object up to its closing brace. -/
def parseObjItems : Nat → Nat → List Char → Option (List (String × Json) × List Char)
  | 0, _, _ => none
  | fuel + 1, depth, input =>
    match skipWs input with
    | '"' :: rest =>
      match scanStr rest with
      | none => none
      | some (kcs, rest2) =>
        match skipWs rest2 with
        | ':' :: rest3 =>
          match parseValue fuel depth rest3 with
          | none => none
          | some (v, rest4) =>
            match skipWs rest4 with
            | ',' :: rest5 =>
              (parseObjItems fuel depth rest5).map fun p =>
                ((String.mk kcs, v) :: p.1, p.2)
            | c :: rest5 =>
              if c.toNat = 125 then some ([(String.mk kcs, v)], rest5) else none
            | [] => none
        | _ => none
    | _ => none

end

/-- Parse a whole JSON document: one value, then only trailing whitespace.
The starting depth 128 is the serde_json default recursion limit: the
128th nested array/object is an error, as with `serde_json::from_str`. -/
def parseJson (s : String) : Option Json :=
  match parseValue (2 * s.length + 2) 128 s.data with
  | some (j, rest) => if (skipWs rest).isEmpty then some j else none
  | none => none

/-! ## The public operations -/

/-- The process environment's view of `VCAP_SERVICES`: unset, set but not
valid unicode text (Rust's `VarError::NotUnicode`), or a text value. -/
inductive EnvVal where
  | unset
  | notUnicode
  | val (s : String)
deriving DecidableEq, Repr

/-- `env::var(VCAP_SERVICES).map_err(|_| CFError::EnvNotSet)`: both error
variants of `env::var` collapse to `EnvNotSet`. -/
def envVarRead : EnvVal → Except CFError String
  | .val s => .ok s
  | .unset => .error .EnvNotSet
  | .notUnicode => .error .EnvNotSet

/-- `serde_json::from_str::<HashMap<String, Vec<Service>>>`: parse the text,
then structurally decode. -/
def fromStr (s : String) : Option Catalog :=
  (parseJson s).bind decodeCatalog

/-- `get_services_from_env`, with the process environment passed explicitly. -/
def get_services_from_env (env : EnvVal) : Except CFError Catalog :=
  (envVarRead env).bind fun v =>
    match fromStr v with
    | some c => .ok c
    | none => .error .MalformedJSON

/-- `get_service_credentials`: project the credentials of every binding under
the requested name, or fail with `ServiceNotPresent`. -/
def get_service_credentials (services : Catalog) (service_name : String) :
    Except CFError (List Credentials) :=
  match catalogGet services service_name with
  | some svcs => .ok (svcs.map Service.credentials)
  | none => .error (.ServiceNotPresent service_name)

/-- `get_service_cred_from_env`: decode, then look up. -/
def get_service_cred_from_env (env : EnvVal) (service_name : String) :
    Except CFError (List Credentials) :=
  (get_services_from_env env).bind fun services =>
    get_service_credentials services service_name

/-! ## Shape predicates and an encoder -/

/-- The wire field names `credStep` dispatches on. -/
def knownCredKey (k : String) : Bool :=
  k = "uri" || k = "jdbcUrl" || k = "http_api_uri" || k = "licenseKey" ||
  k = "client_secret" || k = "client_id" || k = "access_token_uri" ||
  k = "hostname" || k = "username" || k = "password" || k = "port" ||
  k = "name"

/-- The wire field names `serviceStep` dispatches on. -/
def knownServiceKey (k : String) : Bool :=
  k = "name" || k = "instance_name" || k = "binding_name" ||
  k = "credentials" || k = "label"

/-- Modelled from the spec: the repository has no serializer (the structs
only derive `Deserialize`), so "encoding a `ServiceCatalog` back to the
wire JSON shape" is modelled from the spec's wire shape: one entry per
`Credentials` field under its payload name (`jdbcUrl`, `http_api_uri`,
`licenseKey` for the renamed ones). -/
def encodeCredentials (c : Credentials) : Json :=
  .obj [("uri", .str c.uri), ("jdbcUrl", .str c.jdbc_url),
        ("http_api_uri", .str c.api_uri), ("licenseKey", .str c.license_key),
        ("client_secret", .str c.client_secret), ("client_id", .str c.client_id),
        ("access_token_uri", .str c.access_token_uri),
        ("hostname", .str c.hostname), ("username", .str c.username),
        ("password", .str c.password), ("port", .num c.port),
        ("name", .str c.name)]

/-- Modelled from the spec: a binding object of the wire shape. -/
def encodeService (s : Service) : Json :=
  .obj [("name", .str s.name), ("instance_name", .str s.instance_name),
        ("binding_name", .str s.binding_name),
        ("credentials", encodeCredentials s.credentials),
        ("label", .str s.label)]

/-- Modelled from the spec: the whole catalog in the wire shape. -/
def encodeCatalog (cat : Catalog) : Json :=
  .obj (cat.map fun kv => (kv.1, .arr (kv.2.map encodeService)))

/-- An in-memory `Credentials` is representable (Rust's `i16` typing of
`port`). -/
abbrev CredentialsWF (c : Credentials) : Prop :=
  -32768 ≤ c.port ∧ c.port ≤ 32767

/-- An in-memory catalog is representable: unique keys (a `HashMap`) and
`i16`-ranged ports. -/
abbrev CatalogWF (cat : Catalog) : Prop :=
  (cat.map Prod.fst).Nodup
  ∧ ∀ kv ∈ cat, ∀ s ∈ kv.2, CredentialsWF s.credentials

/-! ## Sample values (used by witnesses) -/

/-- The credentials of the test fixture in src/lib.rs. -/
def sampleCred : Credentials :=
  ⟨"example_uri", "", "", "", "", "", "", "", "", "", 8080, ""⟩

/-- The binding of the test fixture in src/lib.rs. -/
def sampleService : Service := ⟨"service_a", "", "", sampleCred, ""⟩

/-- A one-entry catalog as in the test fixture. -/
def sampleCatalog : Catalog := [("serviceA", [sampleService])]

/-! ## C1, C4, C7 -/

/-- C1: `get_service_credentials` returns `Ok` with exactly the
`credentials` field of every binding under the requested key, in order,
precisely when the name is a key of the catalog (zero bindings giving an
empty, non-error sequence); otherwise it fails with `ServiceNotPresent`
carrying the requested name. -/
theorem get_service_credentials_spec (catalog : Catalog) (service_name : String) :
    (∀ svcs, catalogGet catalog service_name = some svcs →
      get_service_credentials catalog service_name = .ok (svcs.map Service.credentials))
    ∧ (catalogGet catalog service_name = none →
      get_service_credentials catalog service_name =
        .error (.ServiceNotPresent service_name)) := by
  constructor
  · intro svcs h
    simp [get_service_credentials, h]
  · intro h
    simp [get_service_credentials, h]

/-- C1 witness: a present key (also one with zero bindings) and an absent
key, on concrete catalogs. -/
theorem get_service_credentials_spec_witness :
    get_service_credentials sampleCatalog "serviceA" = .ok [sampleCred]
    ∧ get_service_credentials [("serviceA", [])] "serviceA" = .ok []
    ∧ get_service_credentials sampleCatalog "serviceB" =
        .error (.ServiceNotPresent "serviceB") :=
  ⟨(get_service_credentials_spec sampleCatalog "serviceA").1 [sampleService] rfl,
   (get_service_credentials_spec [("serviceA", [])] "serviceA").1 [] rfl,
   (get_service_credentials_spec sampleCatalog "serviceB").2 rfl⟩

/-- C4: decoding fails with `EnvNotSet` both when the variable is unset and
when it is present but not readable as text; the two are not
distinguished. -/
theorem get_services_from_env_envNotSet :
    get_services_from_env .unset = .error .EnvNotSet
    ∧ get_services_from_env .notUnicode = .error .EnvNotSet :=
  ⟨rfl, rfl⟩

/-- C7: the composed operation is exactly decode-then-lookup with
short-circuiting: it equals the monadic sequencing, propagates a decode
error unchanged, and on decode success returns exactly the lookup's
result. -/
theorem get_service_cred_from_env_spec (env : EnvVal) (service_name : String) :
    get_service_cred_from_env env service_name =
      (get_services_from_env env).bind
        (fun services => get_service_credentials services service_name)
    ∧ (∀ e, get_services_from_env env = .error e →
        get_service_cred_from_env env service_name = .error e)
    ∧ (∀ cat, get_services_from_env env = .ok cat →
        get_service_cred_from_env env service_name =
          get_service_credentials cat service_name) := by
  refine ⟨rfl, ?_, ?_⟩
  · intro e h
    simp [get_service_cred_from_env, h, Except.bind]
  · intro cat h
    simp [get_service_cred_from_env, h, Except.bind]

/-- C7 witness: the error and success branches at concrete inputs. -/
theorem get_service_cred_from_env_spec_witness :
    get_service_cred_from_env .unset "serviceA" = .error .EnvNotSet
    ∧ get_service_cred_from_env (.val "\x7b\x7d") "serviceA" =
        get_service_credentials ([] : Catalog) "serviceA" :=
  ⟨(get_service_cred_from_env_spec .unset "serviceA").2.1 .EnvNotSet rfl,
   (get_service_cred_from_env_spec (.val "\x7b\x7d") "serviceA").2.2 [] rfl⟩

/-! ## Step-level lemmas -/

/-- Shape of every known-field branch of a decoding step. -/
theorem guard_map_eq_some {α β : Type} (c : Bool) (x : Option α) (f : α → β) (b : β) :
    ((if c = true then none else x.map f) = some b) ↔
      (c = false ∧ ∃ a, x = some a ∧ f a = b) := by
  cases c <;> simp [Option.map_eq_some']

/-- A `credStep` on a name other than `jdbcUrl` leaves `jdbc_url` unchanged. -/
theorem credFrame_jdbc_url (st : CredBuild) (k : String) (v : Json) (st' : CredBuild)
    (h : credStep st (k, v) = some st') (hne : k ≠ "jdbcUrl") : st'.jdbc_url = st.jdbc_url := by
  unfold credStep at h
  split at h
  all_goals first
    | exact absurd (by assumption) hne
    | (injection h with h; subst h; rfl)
    | (rw [guard_map_eq_some] at h
       obtain ⟨-, s, -, rfl⟩ := h
       rfl)

/-- A `credStep` on a name other than `http_api_uri` leaves `api_uri` unchanged. -/
theorem credFrame_api_uri (st : CredBuild) (k : String) (v : Json) (st' : CredBuild)
    (h : credStep st (k, v) = some st') (hne : k ≠ "http_api_uri") : st'.api_uri = st.api_uri := by
  unfold credStep at h
  split at h
  all_goals first
    | exact absurd (by assumption) hne
    | (injection h with h; subst h; rfl)
    | (rw [guard_map_eq_some] at h
       obtain ⟨-, s, -, rfl⟩ := h
       rfl)

/-- A `credStep` on a name other than `licenseKey` leaves `license_key` unchanged. -/
theorem credFrame_license_key (st : CredBuild) (k : String) (v : Json) (st' : CredBuild)
    (h : credStep st (k, v) = some st') (hne : k ≠ "licenseKey") : st'.license_key = st.license_key := by
  unfold credStep at h
  split at h
  all_goals first
    | exact absurd (by assumption) hne
    | (injection h with h; subst h; rfl)
    | (rw [guard_map_eq_some] at h
       obtain ⟨-, s, -, rfl⟩ := h
       rfl)

/-- `credStep` at name `uri` requires the field unseen and sets it from
the value. -/
theorem credSelf_uri (st : CredBuild) (v : Json) (st' : CredBuild)
    (h : credStep st ("uri", v) = some st') :
    st.uri = none ∧ st'.uri = decodeStr v ∧ (decodeStr v).isSome := by
  rw [show credStep st ("uri", v) =
      (if st.uri.isSome then none else
        (decodeStr v).map fun s => { st with uri := some s }) from rfl,
    guard_map_eq_some] at h
  obtain ⟨hn, s, hs, rfl⟩ := h
  exact ⟨Option.not_isSome_iff_eq_none.mp (by simp [hn]), by simp [hs], by simp [hs]⟩

/-- `credStep` at name `jdbcUrl` requires the field unseen and sets it from
the value. -/
theorem credSelf_jdbc_url (st : CredBuild) (v : Json) (st' : CredBuild)
    (h : credStep st ("jdbcUrl", v) = some st') :
    st.jdbc_url = none ∧ st'.jdbc_url = decodeStr v ∧ (decodeStr v).isSome := by
  rw [show credStep st ("jdbcUrl", v) =
      (if st.jdbc_url.isSome then none else
        (decodeStr v).map fun s => { st with jdbc_url := some s }) from rfl,
    guard_map_eq_some] at h
  obtain ⟨hn, s, hs, rfl⟩ := h
  exact ⟨Option.not_isSome_iff_eq_none.mp (by simp [hn]), by simp [hs], by simp [hs]⟩

/-- `credStep` at name `http_api_uri` requires the field unseen and sets it from
the value. -/
theorem credSelf_api_uri (st : CredBuild) (v : Json) (st' : CredBuild)
    (h : credStep st ("http_api_uri", v) = some st') :
    st.api_uri = none ∧ st'.api_uri = decodeStr v ∧ (decodeStr v).isSome := by
  rw [show credStep st ("http_api_uri", v) =
      (if st.api_uri.isSome then none else
        (decodeStr v).map fun s => { st with api_uri := some s }) from rfl,
    guard_map_eq_some] at h
  obtain ⟨hn, s, hs, rfl⟩ := h
  exact ⟨Option.not_isSome_iff_eq_none.mp (by simp [hn]), by simp [hs], by simp [hs]⟩

/-- `credStep` at name `licenseKey` requires the field unseen and sets it from
the value. -/
theorem credSelf_license_key (st : CredBuild) (v : Json) (st' : CredBuild)
    (h : credStep st ("licenseKey", v) = some st') :
    st.license_key = none ∧ st'.license_key = decodeStr v ∧ (decodeStr v).isSome := by
  rw [show credStep st ("licenseKey", v) =
      (if st.license_key.isSome then none else
        (decodeStr v).map fun s => { st with license_key := some s }) from rfl,
    guard_map_eq_some] at h
  obtain ⟨hn, s, hs, rfl⟩ := h
  exact ⟨Option.not_isSome_iff_eq_none.mp (by simp [hn]), by simp [hs], by simp [hs]⟩

/-- `credStep` at name `client_secret` requires the field unseen and sets it from
the value. -/
theorem credSelf_client_secret (st : CredBuild) (v : Json) (st' : CredBuild)
    (h : credStep st ("client_secret", v) = some st') :
    st.client_secret = none ∧ st'.client_secret = decodeStr v ∧ (decodeStr v).isSome := by
  rw [show credStep st ("client_secret", v) =
      (if st.client_secret.isSome then none else
        (decodeStr v).map fun s => { st with client_secret := some s }) from rfl,
    guard_map_eq_some] at h
  obtain ⟨hn, s, hs, rfl⟩ := h
  exact ⟨Option.not_isSome_iff_eq_none.mp (by simp [hn]), by simp [hs], by simp [hs]⟩

/-- `credStep` at name `client_id` requires the field unseen and sets it from
the value. -/
theorem credSelf_client_id (st : CredBuild) (v : Json) (st' : CredBuild)
    (h : credStep st ("client_id", v) = some st') :
    st.client_id = none ∧ st'.client_id = decodeStr v ∧ (decodeStr v).isSome := by
  rw [show credStep st ("client_id", v) =
      (if st.client_id.isSome then none else
        (decodeStr v).map fun s => { st with client_id := some s }) from rfl,
    guard_map_eq_some] at h
  obtain ⟨hn, s, hs, rfl⟩ := h
  exact ⟨Option.not_isSome_iff_eq_none.mp (by simp [hn]), by simp [hs], by simp [hs]⟩

/-- `credStep` at name `access_token_uri` requires the field unseen and sets it from
the value. -/
theorem credSelf_access_token_uri (st : CredBuild) (v : Json) (st' : CredBuild)
    (h : credStep st ("access_token_uri", v) = some st') :
    st.access_token_uri = none ∧ st'.access_token_uri = decodeStr v ∧ (decodeStr v).isSome := by
  rw [show credStep st ("access_token_uri", v) =
      (if st.access_token_uri.isSome then none else
        (decodeStr v).map fun s => { st with access_token_uri := some s }) from rfl,
    guard_map_eq_some] at h
  obtain ⟨hn, s, hs, rfl⟩ := h
  exact ⟨Option.not_isSome_iff_eq_none.mp (by simp [hn]), by simp [hs], by simp [hs]⟩

/-- `credStep` at name `hostname` requires the field unseen and sets it from
the value. -/
theorem credSelf_hostname (st : CredBuild) (v : Json) (st' : CredBuild)
    (h : credStep st ("hostname", v) = some st') :
    st.hostname = none ∧ st'.hostname = decodeStr v ∧ (decodeStr v).isSome := by
  rw [show credStep st ("hostname", v) =
      (if st.hostname.isSome then none else
        (decodeStr v).map fun s => { st with hostname := some s }) from rfl,
    guard_map_eq_some] at h
  obtain ⟨hn, s, hs, rfl⟩ := h
  exact ⟨Option.not_isSome_iff_eq_none.mp (by simp [hn]), by simp [hs], by simp [hs]⟩

/-- `credStep` at name `username` requires the field unseen and sets it from
the value. -/
theorem credSelf_username (st : CredBuild) (v : Json) (st' : CredBuild)
    (h : credStep st ("username", v) = some st') :
    st.username = none ∧ st'.username = decodeStr v ∧ (decodeStr v).isSome := by
  rw [show credStep st ("username", v) =
      (if st.username.isSome then none else
        (decodeStr v).map fun s => { st with username := some s }) from rfl,
    guard_map_eq_some] at h
  obtain ⟨hn, s, hs, rfl⟩ := h
  exact ⟨Option.not_isSome_iff_eq_none.mp (by simp [hn]), by simp [hs], by simp [hs]⟩

/-- `credStep` at name `password` requires the field unseen and sets it from
the value. -/
theorem credSelf_password (st : CredBuild) (v : Json) (st' : CredBuild)
    (h : credStep st ("password", v) = some st') :
    st.password = none ∧ st'.password = decodeStr v ∧ (decodeStr v).isSome := by
  rw [show credStep st ("password", v) =
      (if st.password.isSome then none else
        (decodeStr v).map fun s => { st with password := some s }) from rfl,
    guard_map_eq_some] at h
  obtain ⟨hn, s, hs, rfl⟩ := h
  exact ⟨Option.not_isSome_iff_eq_none.mp (by simp [hn]), by simp [hs], by simp [hs]⟩

/-- `credStep` at name `name` requires the field unseen and sets it from
the value. -/
theorem credSelf_name (st : CredBuild) (v : Json) (st' : CredBuild)
    (h : credStep st ("name", v) = some st') :
    st.name = none ∧ st'.name = decodeStr v ∧ (decodeStr v).isSome := by
  rw [show credStep st ("name", v) =
      (if st.name.isSome then none else
        (decodeStr v).map fun s => { st with name := some s }) from rfl,
    guard_map_eq_some] at h
  obtain ⟨hn, s, hs, rfl⟩ := h
  exact ⟨Option.not_isSome_iff_eq_none.mp (by simp [hn]), by simp [hs], by simp [hs]⟩

/-- `credStep` at name `port` requires the field unseen and sets it from
the value. -/
theorem credSelf_port (st : CredBuild) (v : Json) (st' : CredBuild)
    (h : credStep st ("port", v) = some st') :
    st.port = none ∧ st'.port = decodeI16 v ∧ (decodeI16 v).isSome := by
  rw [show credStep st ("port", v) =
      (if st.port.isSome then none else
        (decodeI16 v).map fun n => { st with port := some n }) from rfl,
    guard_map_eq_some] at h
  obtain ⟨hn, s, hs, rfl⟩ := h
  exact ⟨Option.not_isSome_iff_eq_none.mp (by simp [hn]), by simp [hs], by simp [hs]⟩

section FoldLemmas

variable {σ α : Type}

/-- Unfold one step of a successful `foldlM` over `Option`. -/
theorem foldlM_cons_eq_some (step : σ → String × Json → Option σ)
    (hd : String × Json) (tl : List (String × Json)) (st st' : σ) :
    List.foldlM step st (hd :: tl) = some st' ↔
      ∃ st₂, step st hd = some st₂ ∧ List.foldlM step st₂ tl = some st' := by
  simp only [List.foldlM_cons, Option.bind_eq_bind', Option.bind_eq_some']

/-- A fold fails whenever some entry fails from every state. -/
theorem foldlM_none_of_mem (step : σ → String × Json → Option σ)
    (fields : List (String × Json)) (kv : String × Json)
    (hmem : kv ∈ fields) (hbad : ∀ st, step st kv = none) :
    ∀ st, List.foldlM step st fields = none := by
  induction fields with
  | nil => cases hmem
  | cons hd tl ih =>
    intro st
    rcases List.mem_cons.mp hmem with rfl | hmem'
    · simp [List.foldlM_cons, hbad st]
    · cases hstep : step st hd with
      | none => simp [List.foldlM_cons, hstep]
      | some st₂ => simp [List.foldlM_cons, hstep, ih hmem' st₂]

/-- Once `π` is set, a successful fold keeps it (or would have failed). -/
theorem foldKey_stay (step : σ → String × Json → Option σ) (K : String)
    (π : σ → Option α)
    (hframe : ∀ st k v st', step st (k, v) = some st' → k ≠ K → π st' = π st)
    (hunset : ∀ st v st', step st (K, v) = some st' → π st = none) :
    ∀ fields st st' a, List.foldlM step st fields = some st' →
      π st = some a → π st' = some a := by
  intro fields
  induction fields with
  | nil =>
    intro st st' a h ha
    simp [List.foldlM_nil] at h
    rw [← h, ha]
  | cons hd tl ih =>
    intro st st' a h ha
    rw [foldlM_cons_eq_some] at h
    obtain ⟨st₂, h₂, hfold⟩ := h
    by_cases hk : hd.1 = K
    · exact absurd (hunset st hd.2 st₂ (by rw [← hk, Prod.mk.eta]; exact h₂))
        (by simp [ha])
    · exact ih st₂ st' a hfold
        (by rw [hframe st hd.1 hd.2 st₂ (by rwa [Prod.mk.eta]) hk]; exact ha)

/-- If a successful fold still has an occurrence of `K` ahead, `π` is not
yet set. -/
theorem foldKey_unset (step : σ → String × Json → Option σ) (K : String)
    (π : σ → Option α)
    (hframe : ∀ st k v st', step st (k, v) = some st' → k ≠ K → π st' = π st)
    (hunset : ∀ st v st', step st (K, v) = some st' → π st = none) :
    ∀ fields st st' w, List.foldlM step st fields = some st' →
      (K, w) ∈ fields → π st = none := by
  intro fields
  induction fields with
  | nil => intro st st' w _ hmem; cases hmem
  | cons hd tl ih =>
    intro st st' w h hmem
    rw [foldlM_cons_eq_some] at h
    obtain ⟨st₂, h₂, hfold⟩ := h
    rcases List.mem_cons.mp hmem with rfl | hmem'
    · exact hunset st w st₂ h₂
    · by_cases hk : hd.1 = K
      · exact hunset st hd.2 st₂ (by rw [← hk, Prod.mk.eta]; exact h₂)
      · rw [← hframe st hd.1 hd.2 st₂ (by rwa [Prod.mk.eta]) hk]
        exact ih st₂ st' w hfold hmem'

/-- A successful fold over a list containing `(K, v)` ends with `π` holding
exactly the decoding of `v`. -/
theorem foldKey_mem (step : σ → String × Json → Option σ) (K : String)
    (π : σ → Option α) (dec : Json → Option α)
    (hframe : ∀ st k v st', step st (k, v) = some st' → k ≠ K → π st' = π st)
    (hset : ∀ st v st', step st (K, v) = some st' →
      π st = none ∧ π st' = dec v ∧ (dec v).isSome) :
    ∀ fields st st' v, List.foldlM step st fields = some st' →
      (K, v) ∈ fields → π st' = dec v ∧ (dec v).isSome := by
  intro fields
  induction fields with
  | nil => intro st st' v _ hmem; cases hmem
  | cons hd tl ih =>
    intro st st' v h hmem
    rw [foldlM_cons_eq_some] at h
    obtain ⟨st₂, h₂, hfold⟩ := h
    rcases List.mem_cons.mp hmem with rfl | hmem'
    · obtain ⟨-, hπ, hsome⟩ := hset st v st₂ h₂
      obtain ⟨a, ha⟩ := Option.isSome_iff_exists.mp hsome
      refine ⟨?_, hsome⟩
      rw [foldKey_stay step K π hframe (fun st v st' hst => (hset st v st' hst).1)
        tl st₂ st' a hfold (by rw [hπ, ha]), ha]
    · by_cases hk : hd.1 = K
      · obtain ⟨-, hπ, hsome⟩ := hset st hd.2 st₂ (by rw [← hk, Prod.mk.eta]; exact h₂)
        have hnone : π st₂ = none :=
          foldKey_unset step K π hframe (fun st v st' hst => (hset st v st' hst).1)
            tl st₂ st' v hfold hmem'
        rw [hnone] at hπ
        rw [← hπ] at hsome
        cases hsome
      · exact ih st₂ st' v hfold hmem'

end FoldLemmas

/-- C5: the payload names `jdbcUrl`, `http_api_uri` and `licenseKey` feed
the internal attributes `jdbc_url`, `api_uri` and `license_key`. -/
theorem field_rename_spec (cfields : List (String × Json)) (c : Credentials)
    (h : decodeCredentials (.obj cfields) = some c) :
    (∀ v, ("jdbcUrl", Json.str v) ∈ cfields → c.jdbc_url = v)
    ∧ (∀ v, ("http_api_uri", Json.str v) ∈ cfields → c.api_uri = v)
    ∧ (∀ v, ("licenseKey", Json.str v) ∈ cfields → c.license_key = v) := by
  simp only [decodeCredentials, Option.map_eq_some'] at h
  obtain ⟨st', hst', rfl⟩ := h
  refine ⟨?_, ?_, ?_⟩
  · intro v hmem
    have hget := foldKey_mem credStep "jdbcUrl" (fun st => st.jdbc_url) decodeStr
      credFrame_jdbc_url credSelf_jdbc_url cfields credInit st' (Json.str v)
      hst' hmem
    simp only [decodeStr] at hget
    simp [credFinish, hget.1]
  · intro v hmem
    have hget := foldKey_mem credStep "http_api_uri" (fun st => st.api_uri) decodeStr
      credFrame_api_uri credSelf_api_uri cfields credInit st' (Json.str v)
      hst' hmem
    simp only [decodeStr] at hget
    simp [credFinish, hget.1]
  · intro v hmem
    have hget := foldKey_mem credStep "licenseKey" (fun st => st.license_key) decodeStr
      credFrame_license_key credSelf_license_key cfields credInit st' (Json.str v)
      hst' hmem
    simp only [decodeStr] at hget
    simp [credFinish, hget.1]

/-- C5 witness: a payload with the three wire names, decoded concretely. -/
theorem field_rename_spec_witness :
    ∃ c, decodeCredentials (.obj [("jdbcUrl", Json.str "jdbc:pg"),
        ("http_api_uri", Json.str "https://api"),
        ("licenseKey", Json.str "key123")]) = some c
      ∧ c.jdbc_url = "jdbc:pg" ∧ c.api_uri = "https://api"
      ∧ c.license_key = "key123" := by
  have h : decodeCredentials (.obj [("jdbcUrl", Json.str "jdbc:pg"),
      ("http_api_uri", Json.str "https://api"),
      ("licenseKey", Json.str "key123")]) =
      some ⟨"", "jdbc:pg", "https://api", "key123", "", "", "", "", "", "", 0, ""⟩ := rfl
  obtain ⟨h1, h2, h3⟩ := field_rename_spec _ _ h
  exact ⟨_, h,
    h1 "jdbc:pg" (List.mem_cons_self _ _),
    h2 "https://api" (List.mem_cons_of_mem _ (List.mem_cons_self _ _)),
    h3 "key123" (List.mem_cons_of_mem _ (List.mem_cons_of_mem _ (List.mem_cons_self _ _)))⟩

/-- An out-of-range integer fails the `port` field from any state. -/
theorem credStep_port_bad (st : CredBuild) (n : Int)
    (h : n < -32768 ∨ 32767 < n) : credStep st ("port", Json.num n) = none := by
  rw [show credStep st ("port", Json.num n) =
      (if st.port.isSome then none else
        (decodeI16 (Json.num n)).map fun m => { st with port := some m }) from rfl]
  have hdec : decodeI16 (Json.num n) = none := by
    unfold decodeI16
    rcases h with h | h <;> simp <;> omega
  simp [hdec]

/-- C9: `port` is a 16-bit signed integer: any integer outside
`-32768..=32767` (such as 40000) is rejected, surfacing as
`MalformedJSON` at the API. -/
theorem port_i16_spec :
    (∀ (n : Int) cfields, (n < -32768 ∨ 32767 < n) →
      ("port", Json.num n) ∈ cfields → decodeCredentials (.obj cfields) = none)
    ∧ get_services_from_env
        (.val "\x7b\"serviceA\": [\x7b\"credentials\": \x7b\"port\": 40000\x7d\x7d]\x7d") =
        .error .MalformedJSON := by
  constructor
  · intro n cfields hn hmem
    have hfold := foldlM_none_of_mem credStep cfields ("port", Json.num n) hmem
      (fun st => credStep_port_bad st n hn) credInit
    simp [decodeCredentials, hfold]
  · rfl

/-- C9 witness: the general half applied at 40000. -/
theorem port_i16_spec_witness :
    ((40000 : Int) < -32768 ∨ (32767 : Int) < 40000)
    ∧ decodeCredentials (.obj [("port", Json.num 40000)]) = none :=
  ⟨by decide,
   port_i16_spec.1 40000 [("port", Json.num 40000)] (by decide)
     (List.mem_cons_self _ _)⟩

/-- A known `Credentials` field rejects an explicit JSON `null` from any
state. -/
theorem credStep_null_bad (st : CredBuild) (k : String)
    (hk : knownCredKey k = true) : credStep st (k, Json.null) = none := by
  unfold credStep
  split
  all_goals simp_all [knownCredKey, decodeStr, decodeI16]

/-- A known `Service` field rejects an explicit JSON `null` from any
state. -/
theorem serviceStep_null_bad (st : ServiceBuild) (k : String)
    (hk : knownServiceKey k = true) : serviceStep st (k, Json.null) = none := by
  unfold serviceStep
  split
  all_goals simp_all [knownServiceKey, decodeStr, decodeCredentials]

/-- C10: defaulting applies only to absent keys: a known field present with
an explicit JSON `null` makes decoding fail instead of substituting the
default. -/
theorem null_rejected_spec :
    (∀ k cfields, knownCredKey k = true → (k, Json.null) ∈ cfields →
      decodeCredentials (.obj cfields) = none)
    ∧ (∀ k sfields, knownServiceKey k = true → (k, Json.null) ∈ sfields →
      decodeService (.obj sfields) = none) := by
  constructor
  · intro k cfields hk hmem
    have hfold := foldlM_none_of_mem credStep cfields (k, Json.null) hmem
      (fun st => credStep_null_bad st k hk) credInit
    simp [decodeCredentials, hfold]
  · intro k sfields hk hmem
    have hfold := foldlM_none_of_mem serviceStep sfields (k, Json.null) hmem
      (fun st => serviceStep_null_bad st k hk) serviceInit
    simp [decodeService, hfold]

/-- C10 witness: `"uri": null` in a credentials object and `"label": null`
in a binding object. -/
theorem null_rejected_spec_witness :
    decodeCredentials (.obj [("uri", Json.null)]) = none
    ∧ decodeService (.obj [("credentials", Json.obj []), ("label", Json.null)]) = none :=
  ⟨null_rejected_spec.1 "uri" [("uri", Json.null)] (by decide)
     (List.mem_cons_self _ _),
   null_rejected_spec.2 "label" [("credentials", Json.obj []), ("label", Json.null)]
     (by decide) (List.mem_cons_of_mem _ (List.mem_cons_self _ _))⟩

/-- Round-trip at the `Credentials` level. -/
theorem decode_encode_cred (c : Credentials) (h : CredentialsWF c) :
    decodeCredentials (encodeCredentials c) = some c := by
  have hport : decodeI16 (Json.num c.port) = some c.port := by
    simp [decodeI16, h.1, h.2]
  simp [encodeCredentials, decodeCredentials, List.foldlM_cons, List.foldlM_nil,
    credStep, decodeStr, hport, credInit, credFinish]

/-- Round-trip at the `Service` level. -/
theorem decode_encode_service (s : Service) (h : CredentialsWF s.credentials) :
    decodeService (encodeService s) = some s := by
  simp [encodeService, decodeService, List.foldlM_cons, List.foldlM_nil,
    serviceStep, decodeStr, decode_encode_cred s.credentials h, serviceInit,
    serviceFinish, Option.bind_eq_bind']

/-- Round-trip at the `Vec<Service>` level. -/
theorem decode_encode_services (svcs : List Service)
    (h : ∀ s ∈ svcs, CredentialsWF s.credentials) :
    (svcs.map encodeService).mapM decodeService = some svcs := by
  rw [← List.mapM'_eq_mapM]
  induction svcs with
  | nil => rfl
  | cons hd tl ih =>
    simp [List.mapM',
      decode_encode_service hd (h hd (List.mem_cons_self hd tl)),
      ih (fun s hs => h s (List.mem_cons_of_mem hd hs))]

/-- Inserting a fresh key appends it. -/
theorem insertCatalog_append (k : String) (v : List Service) :
    ∀ cat : Catalog, k ∉ cat.map Prod.fst →
    insertCatalog cat k v = cat ++ [(k, v)] := by
  intro cat
  induction cat with
  | nil => intro _; rfl
  | cons hd tl ih =>
    intro hk
    obtain ⟨k', v'⟩ := hd
    have hne : k' ≠ k := by
      intro heq
      exact hk (by simp [heq])
    simp only [insertCatalog, if_neg hne, List.cons_append, List.cons.injEq, true_and]
    exact ih (fun hmem => hk (by simp [hmem]))

/-- The catalog fold rebuilds an encoded catalog behind any accumulated
prefix with disjoint keys. -/
theorem decode_encode_catalog_fold :
    ∀ (cat : Catalog) (acc : Catalog),
    (∀ kv ∈ cat, ∀ s ∈ kv.2, CredentialsWF s.credentials) →
    (((acc ++ cat).map Prod.fst).Nodup) →
    List.foldlM (fun c kv => (decodeServiceList kv.2).map (insertCatalog c kv.1))
      acc (cat.map fun kv => (kv.1, Json.arr (kv.2.map encodeService))) =
      some (acc ++ cat) := by
  intro cat
  induction cat with
  | nil => intro acc _ _; simp [List.foldlM_nil]
  | cons hd tl ih =>
    intro acc h hnd
    have hdec : decodeServiceList (Json.arr (hd.2.map encodeService)) = some hd.2 := by
      have := decode_encode_services hd.2
        (fun s hs => h hd (List.mem_cons_self hd tl) s hs)
      simpa [decodeServiceList] using this
    have hfresh : hd.1 ∉ acc.map Prod.fst := by
      intro hmem
      have : ¬ (acc.map Prod.fst).Disjoint ((hd :: tl).map Prod.fst) := by
        intro hdisj
        exact hdisj hmem (by simp)
      rw [List.map_append] at hnd
      exact this (List.nodup_append.mp hnd).2.2
    have hins : insertCatalog acc hd.1 hd.2 = acc ++ [(hd.1, hd.2)] :=
      insertCatalog_append hd.1 hd.2 acc hfresh
    have hstep :
        (fun c kv => (decodeServiceList kv.2).map (insertCatalog c kv.1)) acc
          (hd.1, Json.arr (hd.2.map encodeService)) =
          some (acc ++ [hd]) := by
      simp [hdec, hins]
    rw [List.map_cons, foldlM_cons_eq_some]
    refine ⟨acc ++ [hd], hstep, ?_⟩
    have hrearr : (acc ++ [hd]) ++ tl = acc ++ hd :: tl := by simp
    rw [ih (acc ++ [hd]) (fun kv hkv => h kv (List.mem_cons_of_mem hd hkv))
      (by rwa [hrearr]), hrearr]

/-- C8: encoding an in-memory catalog to the wire JSON shape and decoding
it again restores the catalog field for field. -/
theorem roundtrip_spec (cat : Catalog) (h : CatalogWF cat) :
    decodeCatalog (encodeCatalog cat) = some cat := by
  have hfold := decode_encode_catalog_fold cat [] h.2 (by simpa using h.1)
  simpa [decodeCatalog, encodeCatalog] using hfold

/-- C8 witness: the fixture catalog, rebuilt exactly. -/
theorem roundtrip_spec_witness :
    CatalogWF sampleCatalog
    ∧ decodeCatalog (encodeCatalog sampleCatalog) = some sampleCatalog :=
  ⟨by decide, roundtrip_spec sampleCatalog (by decide)⟩
